import Mathlib

/-!
Shallow embedding of the img2b64 batch converter (src/app/core.py).

Bytes are modelled as `List Nat`; the image-processing backend (Pillow) is
modelled as an explicit environment `Env` of oracles: `openImg` is the
normalizer (decode + EXIF transpose + RGB convert, returning the resulting
pixel dimensions, or failing on undecodable bytes) and `encode` produces the
JPEG byte stream for the original input at given current dimensions and
quality.  File-system effects of `run_batch` are modelled by `readFile` /
`writeOk` oracles and by recording, in the `BatchResult`, which files were
written, the manifest contents and the log messages.

The float expressions `int(w*0.85)` and `int(h*(max_px/w))` of the source are
modelled by the exact rational floors `w*17/20` and `h*max_px/w`; the
summary-line number formatting (`human`) is presentation only and is carried
as a structured `LogMsg.done` message instead of formatted text.
-/

namespace Img2B64

/-- The base64 alphabet, as in RFC 4648 (used by Python `base64.b64encode`). -/
def b64table : List Char :=
  "ABCDEFGHIJKLMNOPQRSTUVWXYZabcdefghijklmnopqrstuvwxyz0123456789+/".toList

def b64char (i : Nat) : Char := b64table.getD i 'A'

/-- Standard base64 encoding of a byte list, with `=` padding, as produced by
`base64.b64encode(b).decode("ascii")`. -/
def b64encode : List Nat → List Char
  | [] => []
  | [a] => [b64char (a / 4), b64char (a % 4 * 16), '=', '=']
  | [a, b] => [b64char (a / 4), b64char (a % 4 * 16 + b / 16), b64char (b % 16 * 4), '=']
  | a :: b :: c :: rest =>
      b64char (a / 4) :: b64char (a % 4 * 16 + b / 16) ::
        b64char (b % 16 * 4 + c / 64) :: b64char (c % 64) :: b64encode rest

/-- The oracles standing for the runtime environment: Pillow availability, the
file system, the image decoder/normalizer, and the JPEG encoder.  `encode`
takes the original input bytes, the current pixel dimensions and the quality
setting. -/
structure Env where
  pilOk : Bool
  readFile : String → Except String (List Nat)
  openImg : List Nat → Except String (Nat × Nat)
  encode : List Nat → Nat × Nat → Nat → List Nat
  writeOk : String → Bool

/-- The metadata dictionary returned by `jpeg_fit_to_b64_cap` (either the
Pillow-missing note, or final dims / byte count / base64 char count), plus the
small dict built inline by `run_batch` when `cap_chars` is unset. -/
inductive FitMeta where
  | note (s : String)
  | pass (jpeg_bytes : Nat)
  | full (final_dims : Nat × Nat) (jpeg_bytes : Nat) (base64_chars : Nat)
  deriving DecidableEq, Repr

/-- Initial proportional downscale so the longer edge is at most `max_px`
(core.py lines 41-49); `int(h*(max_px/w))` is modelled as `h*max_px/w`. -/
def initResize (dims : Nat × Nat) (max_px : Nat) : Nat × Nat :=
  let w := dims.1
  let h := dims.2
  if max w h > max_px then
    if w ≥ h then (max_px, h * max_px / w) else (w * max_px / h, max_px)
  else dims

/-- The quality binary search of core.py lines 59-68: `enc` encodes at a given
quality, `data` is the current best encoding, and the returned triple is the
final `(data, q_lo, q_hi)`. -/
def bsearch (enc : Nat → List Nat) (max_bytes : Nat) (q_lo q_hi : Nat)
    (data : List Nat) : List Nat × Nat × Nat :=
  if h : q_lo < q_hi then
    if (enc ((q_lo + q_hi) / 2)).length ≤ max_bytes then
      bsearch enc max_bytes q_lo ((q_lo + q_hi) / 2) (enc ((q_lo + q_hi) / 2))
    else
      bsearch enc max_bytes ((q_lo + q_hi) / 2 + 1) q_hi data
  else (data, q_lo, q_hi)
termination_by q_hi - q_lo
decreasing_by all_goals omega

/-- The qualities probed by `bsearch`, in the order they are encoded. -/
def bsearchProbes (enc : Nat → List Nat) (max_bytes : Nat) (q_lo q_hi : Nat) :
    List Nat :=
  if h : q_lo < q_hi then
    ((q_lo + q_hi) / 2) ::
      (if (enc ((q_lo + q_hi) / 2)).length ≤ max_bytes then
        bsearchProbes enc max_bytes q_lo ((q_lo + q_hi) / 2)
       else bsearchProbes enc max_bytes ((q_lo + q_hi) / 2 + 1) q_hi)
  else []
termination_by q_hi - q_lo
decreasing_by all_goals omega

/-- One state of the fallback downscale loop: current dimensions, current
encoded bytes, attempts made so far. -/
abbrev FallbackState := (Nat × Nat) × List Nat × Nat

/-- The guard of the fallback loop (core.py line 72). -/
def fallbackCont (max_bytes : Nat) (s : FallbackState) : Prop :=
  s.2.1.length > max_bytes ∧ max s.1.1 s.1.2 > 50 ∧ s.2.2 < 6

instance (max_bytes : Nat) (s : FallbackState) : Decidable (fallbackCont max_bytes s) := by
  unfold fallbackCont; infer_instance

/-- One downscale step: both dimensions shrink to `max 1 (d*17/20)`
(modelling `max(1, int(d*0.85))`) and the image is re-encoded at
`quality_floor`. -/
def fallbackStep (enc : Nat × Nat → Nat → List Nat) (quality_floor : Nat)
    (s : FallbackState) : FallbackState :=
  let dims := (max 1 (s.1.1 * 17 / 20), max 1 (s.1.2 * 17 / 20))
  (dims, enc dims quality_floor, s.2.2 + 1)

/-- The fallback downscale loop of core.py lines 70-76. -/
def fallbackLoop (enc : Nat × Nat → Nat → List Nat) (max_bytes quality_floor : Nat)
    (s : FallbackState) : FallbackState :=
  if _h : fallbackCont max_bytes s then
    fallbackLoop enc max_bytes quality_floor (fallbackStep enc quality_floor s)
  else s
termination_by 6 - s.2.2
decreasing_by simp only [fallbackStep]; obtain ⟨-, -, h⟩ := _h; omega

/-- All states visited by the fallback loop, the initial one included. -/
def fallbackTrace (enc : Nat × Nat → Nat → List Nat) (max_bytes quality_floor : Nat)
    (s : FallbackState) : List FallbackState :=
  s ::
    (if _h : fallbackCont max_bytes s then
      fallbackTrace enc max_bytes quality_floor (fallbackStep enc quality_floor s)
     else [])
termination_by 6 - s.2.2
decreasing_by simp only [fallbackStep]; obtain ⟨-, -, h⟩ := _h; omega

/-- `jpeg_fit_to_b64_cap` (core.py lines 30-83): best-effort re-encoding of
`jpeg_bytes` so that its base64 text stays within `cap_chars` characters.
Fails (raises) only when the normalizer cannot decode the bytes. -/
def jpeg_fit_to_b64_cap (env : Env) (jpeg_bytes : List Nat) (cap_chars : Nat)
    (max_px : Nat) (quality_floor : Nat) : Except String (List Nat × FitMeta) :=
  if env.pilOk = false then
    .ok (jpeg_bytes, .note "Pillow not installed; no resizing/compression performed.")
  else
    match env.openImg jpeg_bytes with
    | .error e => .error e
    | .ok dims0 =>
      let max_bytes := cap_chars * 3 / 4
      let dims1 := initResize dims0 max_px
      let data0 := env.encode jpeg_bytes dims1 85
      let res :=
        if data0.length > max_bytes then
          let data1 := (bsearch (fun q => env.encode jpeg_bytes dims1 q)
            max_bytes quality_floor 85 data0).1
          if data1.length > max_bytes then
            let r := fallbackLoop (fun d q => env.encode jpeg_bytes d q)
              max_bytes quality_floor (dims1, data1, 0)
            (r.1, r.2.1)
          else (dims1, data1)
        else (dims1, data0)
      .ok (res.2, .full res.1 res.2.length (4 * ((res.2.length + 2) / 3)))

/-- The configuration surface of `run_batch` (input/output directories are
implicit: all paths are taken relative to them). -/
structure Config where
  recurse : Bool
  data_uri : Bool
  cap_chars : Option Nat
  csv_map : Bool
  max_px : Nat
  quality_floor : Nat

/-- One entry of `manifest.json` (core.py lines 141-148). -/
structure ManifestEntry where
  source : String
  output : String
  orig_bytes : Nat
  final_jpeg_bytes : Nat
  base64_chars : Nat
  data_uri : Bool
  deriving DecidableEq, Repr

/-- The log messages `run_batch` emits, structured (the numeric formatting of
the summary line via `human` is presentation only and not modelled). -/
inductive LogMsg where
  | noInput
  | warn (path errMsg : String)
  | done (total_in total_out_b64chars : Nat)
  | skippedNote (n : Nat)
  | outputs
  deriving DecidableEq, Repr

/-- The four glob patterns of core.py line 96, as extension suffixes. -/
def jpegPatterns : List String := [".jpg", ".jpeg", ".JPG", ".JPEG"]

/-- Whether relative path `p` is matched by glob pattern `*` ++ `ext`:
the name must end with the extension, and without `recurse` only top-level
files (no directory separator in the relative path) are seen. -/
def matchesPat (recurse : Bool) (ext : String) (p : String) : Bool :=
  ext.toList.isSuffixOf p.toList && (recurse || !(p.toList.contains '/'))

/-- File discovery (core.py lines 96-99): for each pattern in order, append
all matching relative paths, keeping the file-system order within a pattern. -/
def discover (paths : List String) (recurse : Bool) : List String :=
  jpegPatterns.foldl (fun acc ext => acc ++ paths.filter (matchesPat recurse ext)) []

/-- The `data:image/jpeg;base64,` header prepended when `data_uri` is set. -/
def dataUriHeader : List Char := "data:image/jpeg;base64,".toList

/-- `rel.with_suffix(".b64.txt")`: replace the extension of the final path
component with `.b64.txt` (append when the name has no extension or is a bare
dot-file). -/
def withSuffixB64 (s : String) : String :=
  let r := s.toList.reverse
  let ext := r.takeWhile (fun c => !(c = '.') && !(c = '/'))
  match r.drop ext.length with
  | '.' :: stemRev =>
      if stemRev = [] || stemRev.head? = some '/' then
        String.mk (s.toList ++ ".b64.txt".toList)
      else
        String.mk (stemRev.reverse ++ ".b64.txt".toList)
  | _ => String.mk (s.toList ++ ".b64.txt".toList)

/-- The body of the per-file `try` block of core.py lines 112-148: read the
file, optionally run the size-fitting encoder, base64-encode, write the text
file, and build the manifest entry.  Any failing step short-circuits with the
error message that the driver will log. -/
def processFile (env : Env) (cfg : Config) (rel : String) :
    Except String ManifestEntry :=
  match env.readFile rel with
  | .error msg => .error msg
  | .ok b =>
    let original_len := b.length
    let shrunk : Except String (List Nat × FitMeta) :=
      match cfg.cap_chars with
      | some cap => jpeg_fit_to_b64_cap env b cap cfg.max_px cfg.quality_floor
      | none => .ok (b, FitMeta.pass b.length)
    match shrunk with
    | .error msg => .error msg
    | .ok (b, _meta) =>
      let b64 := b64encode b
      let b64_full := (if cfg.data_uri then dataUriHeader else []) ++ b64
      let out_file := withSuffixB64 rel
      if env.writeOk out_file then
        .ok { source := rel, output := out_file, orig_bytes := original_len,
              final_jpeg_bytes := b.length, base64_chars := b64_full.length,
              data_uri := cfg.data_uri }
      else
        .error "write failed"

/-- The mutable state of the per-file loop of `run_batch`. -/
structure LoopState where
  out_map : List ManifestEntry
  total_in : Nat
  total_out_b64chars : Nat
  skipped : Nat
  logs : List LogMsg
  written : List String
  deriving DecidableEq, Repr

/-- One iteration of the per-file loop: on success, write the output file and
append the manifest entry and totals; on any exception, log a warning naming
the file and bump the skip counter. -/
def stepFile (env : Env) (cfg : Config) (st : LoopState) (p : String) : LoopState :=
  match processFile env cfg p with
  | .ok e =>
      { st with
        out_map := st.out_map ++ [e],
        total_in := st.total_in + e.orig_bytes,
        total_out_b64chars := st.total_out_b64chars + e.base64_chars,
        written := st.written ++ [e.output] }
  | .error msg =>
      { st with
        skipped := st.skipped + 1,
        logs := st.logs ++ [.warn p msg] }

def initState : LoopState :=
  { out_map := [], total_in := 0, total_out_b64chars := 0, skipped := 0,
    logs := [], written := [] }

/-- The outcome of one `run_batch` call: the return code, whether the output
directory was created, the contents of `manifest.json` and `manifest.csv`
(when written), the summary counters, the log, and the files written. -/
structure BatchResult where
  exitCode : Nat
  outDirCreated : Bool
  manifestJson : Option (List ManifestEntry)
  csvRows : Option (List (List String))
  total_in : Nat
  total_out_b64chars : Nat
  skipped : Nat
  logs : List LogMsg
  written : List String
  deriving DecidableEq, Repr

def csvHeader : List String :=
  ["source", "output", "orig_bytes", "final_jpeg_bytes", "base64_chars", "data_uri"]

/-- One `manifest.csv` row (core.py lines 163-171); Python `str()` of a bool
renders as `True`/`False`. -/
def csvRow (e : ManifestEntry) : List String :=
  [e.source, e.output, toString e.orig_bytes, toString e.final_jpeg_bytes,
   toString e.base64_chars, if e.data_uri then "True" else "False"]

/-- `run_batch` (core.py lines 85-177), over the relative paths present under
the input directory. -/
def run_batch (env : Env) (cfg : Config) (paths : List String) : BatchResult :=
  let files := discover paths cfg.recurse
  if files = [] then
    { exitCode := 1, outDirCreated := false, manifestJson := none, csvRows := none,
      total_in := 0, total_out_b64chars := 0, skipped := 0,
      logs := [.noInput], written := [] }
  else
    let st := files.foldl (stepFile env cfg) initState
    { exitCode := 0,
      outDirCreated := true,
      manifestJson := some st.out_map,
      csvRows := if cfg.csv_map then some (csvHeader :: st.out_map.map csvRow) else none,
      total_in := st.total_in,
      total_out_b64chars := st.total_out_b64chars,
      skipped := st.skipped,
      logs := st.logs ++ [.done st.total_in st.total_out_b64chars] ++
        (if st.skipped > 0 then [.skippedNote st.skipped] else []) ++ [.outputs],
      written := st.written ++ ["manifest.json"] ++
        (if cfg.csv_map then ["manifest.csv"] else []) }

/-- The warning the driver logs for `p` when its processing fails. -/
def warnOf (env : Env) (cfg : Config) (p : String) : Option LogMsg :=
  match processFile env cfg p with
  | .ok _ => none
  | .error msg => some (.warn p msg)

/-- A concrete environment used by the witnesses: one readable top-level file
`a.jpg` of one byte, every image decoding to 10x10 pixels, every JPEG encode
producing 4 bytes, and all writes succeeding. -/
def envDemo : Env :=
  { pilOk := true,
    readFile := fun s => if s = "a.jpg" then .ok [0] else .error "missing",
    openImg := fun _ => .ok (10, 10),
    encode := fun _ _ _ => [0, 0, 0, 0],
    writeOk := fun _ => true }

/-- A configuration with `data_uri` set and no character cap. -/
def cfgUri : Config :=
  { recurse := false, data_uri := true, cap_chars := none, csv_map := false,
    max_px := 800, quality_floor := 50 }

def envNoPil : Env :=
  { pilOk := false,
    readFile := fun _ => .error "missing",
    openImg := fun _ => .error "no backend",
    encode := fun _ _ _ => [],
    writeOk := fun _ => false }

/-- An environment where `b.jpg` fails to read but `a.jpg` succeeds. -/
def envMix : Env :=
  { pilOk := true,
    readFile := fun s => if s = "a.jpg" then .ok [0] else .error "io error",
    openImg := fun _ => .ok (10, 10),
    encode := fun _ _ _ => [0, 0, 0, 0],
    writeOk := fun _ => true }

/-- An environment in which every read fails. -/
def envFailAll : Env :=
  { pilOk := true,
    readFile := fun _ => .error "io",
    openImg := fun _ => .error "x",
    encode := fun _ _ _ => [],
    writeOk := fun _ => false }

/-- A configuration asking for the CSV map, with no cap. -/
def cfgCsv : Config :=
  { recurse := false, data_uri := false, cap_chars := none, csv_map := true,
    max_px := 800, quality_floor := 50 }

/-- The longer edge of the image in a fallback-loop state. -/
def longEdge (s : FallbackState) : Nat := max s.1.1 s.1.2

theorem b64encode_length (l : List Nat) :
    (b64encode l).length = 4 * ((l.length + 2) / 3) := by
  induction l using b64encode.induct <;> simp [b64encode, *] <;> omega

theorem foldl_out_map (env : Env) (cfg : Config) :
    ∀ (files : List String) (st : LoopState),
      (files.foldl (stepFile env cfg) st).out_map
        = st.out_map ++ files.filterMap (fun p => (processFile env cfg p).toOption) := by
  intro files
  induction files with
  | nil => intro st; simp
  | cons p t ih =>
      intro st
      simp only [List.foldl_cons, List.filterMap_cons]
      rw [ih]
      cases h : processFile env cfg p <;> simp [stepFile, h, Except.toOption]

theorem foldl_skipped (env : Env) (cfg : Config) :
    ∀ (files : List String) (st : LoopState),
      (files.foldl (stepFile env cfg) st).skipped
        = st.skipped + (files.filter (fun p => !(processFile env cfg p).isOk)).length := by
  intro files
  induction files with
  | nil => intro st; simp
  | cons p t ih =>
      intro st
      simp only [List.foldl_cons, List.filter_cons]
      rw [ih]
      cases h : processFile env cfg p <;>
        simp [stepFile, h, Except.isOk, Except.toBool] <;> omega

theorem foldl_logs (env : Env) (cfg : Config) :
    ∀ (files : List String) (st : LoopState),
      (files.foldl (stepFile env cfg) st).logs
        = st.logs ++ files.filterMap (warnOf env cfg) := by
  intro files
  induction files with
  | nil => intro st; simp
  | cons p t ih =>
      intro st
      simp only [List.foldl_cons, List.filterMap_cons]
      rw [ih]
      cases h : processFile env cfg p <;> simp [stepFile, warnOf, h]

/-- C4: `run_batch` returns the success signal (0) exactly when at least one
matching file was discovered, and the failure signal (1) exactly when zero
matching files are found, regardless of per-file outcomes. -/
theorem c4_return_signal (env : Env) (cfg : Config) (paths : List String) :
    (run_batch env cfg paths).exitCode
        = (if discover paths cfg.recurse = [] then 1 else 0)
      ∧ ((run_batch env cfg paths).exitCode = 0 ↔ discover paths cfg.recurse ≠ []) := by
  unfold run_batch
  by_cases h : discover paths cfg.recurse = [] <;> simp [h]

theorem c4_return_signal_witness :
    (run_batch envDemo cfgUri ["a.jpg"]).exitCode
        = (if discover ["a.jpg"] cfgUri.recurse = [] then 1 else 0)
      ∧ ((run_batch envDemo cfgUri ["a.jpg"]).exitCode = 0
          ↔ discover ["a.jpg"] cfgUri.recurse ≠ []) :=
  c4_return_signal envDemo cfgUri ["a.jpg"]

/-- C5: when zero files with a JPEG extension are discovered, `run_batch`
logs the no-input message and returns the failure signal, and neither the
output directory nor any manifest file (nor any other file) is created. -/
theorem c5_no_input_files (env : Env) (cfg : Config) (paths : List String)
    (h : discover paths cfg.recurse = []) :
    (run_batch env cfg paths).exitCode = 1
      ∧ LogMsg.noInput ∈ (run_batch env cfg paths).logs
      ∧ (run_batch env cfg paths).outDirCreated = false
      ∧ (run_batch env cfg paths).manifestJson = none
      ∧ (run_batch env cfg paths).csvRows = none
      ∧ (run_batch env cfg paths).written = [] := by
  unfold run_batch
  simp [h]

theorem c5_no_input_files_witness :
    (run_batch envDemo cfgUri ["photo.Jpg", "notes.txt"]).exitCode = 1
      ∧ LogMsg.noInput ∈ (run_batch envDemo cfgUri ["photo.Jpg", "notes.txt"]).logs
      ∧ (run_batch envDemo cfgUri ["photo.Jpg", "notes.txt"]).outDirCreated = false
      ∧ (run_batch envDemo cfgUri ["photo.Jpg", "notes.txt"]).manifestJson = none
      ∧ (run_batch envDemo cfgUri ["photo.Jpg", "notes.txt"]).csvRows = none
      ∧ (run_batch envDemo cfgUri ["photo.Jpg", "notes.txt"]).written = [] :=
  c5_no_input_files envDemo cfgUri ["photo.Jpg", "notes.txt"] (by decide)

/-- C9: when the image-processing capability is unavailable, the size-fitting
encoder returns the original bytes unchanged with a descriptive note, for
every input and budget, and never fails. -/
theorem c9_no_pillow (env : Env) (b : List Nat) (cap max_px quality_floor : Nat)
    (h : env.pilOk = false) :
    jpeg_fit_to_b64_cap env b cap max_px quality_floor =
      .ok (b, .note "Pillow not installed; no resizing/compression performed.") := by
  simp [jpeg_fit_to_b64_cap, h]

theorem c9_no_pillow_witness :
    jpeg_fit_to_b64_cap envNoPil [1, 2, 3] 10 800 50 =
      .ok ([1, 2, 3], .note "Pillow not installed; no resizing/compression performed.") :=
  c9_no_pillow envNoPil [1, 2, 3] 10 800 50 rfl

/-- C2 counterexample: with `cap_chars = 6` the best-effort search succeeds
with 4 returned bytes (4 ≤ floor(6*3/4) = 4), yet the base64 character count
is `4*ceil(4/3) = 8 > 6`: the claimed invariant fails near the boundary. -/
theorem c2_counterexample :
    jpeg_fit_to_b64_cap envDemo [0] 6 800 50 = .ok ([0, 0, 0, 0], .full (10, 10) 4 8)
      ∧ ([0, 0, 0, 0] : List Nat).length ≤ 6 * 3 / 4
      ∧ ¬ (4 * ((([0, 0, 0, 0] : List Nat).length + 2) / 3) ≤ 6) :=
  ⟨rfl, by decide, by decide⟩

/-- C2 (amended): when `cap_chars` is set and the best-effort search succeeds
(the returned bytes number at most `floor(cap_chars*3/4)`), the base64
character count of the returned bytes is at most `cap_chars + 2`; the +2
slack near the boundary (`cap_chars % 4 ∈ {2,3}`) is forced by the
approximate byte-budget conversion. -/
theorem c2_cap_slack_amended (env : Env) (b : List Nat)
    (cap max_px quality_floor : Nat) (data : List Nat) (meta : FitMeta)
    (hpos : 0 < cap)
    (hres : jpeg_fit_to_b64_cap env b cap max_px quality_floor = .ok (data, meta))
    (hfit : data.length ≤ cap * 3 / 4) :
    4 * ((data.length + 2) / 3) ≤ cap + 2 := by
  omega

theorem c2_cap_slack_amended_witness :
    4 * ((([0, 0, 0, 0] : List Nat).length + 2) / 3) ≤ 8 + 2 :=
  c2_cap_slack_amended envDemo [0] 8 800 50 [0, 0, 0, 0] (.full (10, 10) 4 8)
    (by decide) rfl (by decide)

theorem dataUriHeader_length : dataUriHeader.length = 23 := rfl

/-- Every manifest entry produced by a successful per-file run: its
`data_uri` flag comes from the configuration, its `base64_chars` counts the
optional 23-character data-URI header plus the padded base64 text, and with
no `cap_chars` its final byte count is the original byte count. -/
theorem processFile_ok_entry (env : Env) (cfg : Config) (rel : String)
    (e : ManifestEntry) (h : processFile env cfg rel = .ok e) :
    e.data_uri = cfg.data_uri
    ∧ e.base64_chars = (if e.data_uri then 23 else 0) + 4 * ((e.final_jpeg_bytes + 2) / 3)
    ∧ (cfg.cap_chars = none → e.final_jpeg_bytes = e.orig_bytes) := by
  cases hr : env.readFile rel with
  | error msg => simp [processFile, hr] at h
  | ok b =>
    cases hc : cfg.cap_chars with
    | none =>
      simp only [processFile, hr, hc] at h
      by_cases hw : env.writeOk (withSuffixB64 rel)
      · simp only [hw, if_true, Except.ok.injEq] at h
        subst h
        refine ⟨rfl, ?_, fun _ => rfl⟩
        simp only [List.length_append, b64encode_length]
        cases hd : cfg.data_uri <;> simp [dataUriHeader_length]
      · simp [hw] at h
    | some cap =>
      cases hj : jpeg_fit_to_b64_cap env b cap cfg.max_px cfg.quality_floor with
      | error msg => simp [processFile, hr, hc, hj] at h
      | ok pr =>
        obtain ⟨b2, m⟩ := pr
        simp only [processFile, hr, hc, hj] at h
        by_cases hw : env.writeOk (withSuffixB64 rel)
        · simp only [hw, if_true, Except.ok.injEq] at h
          subst h
          refine ⟨rfl, ?_, fun hnone => by simp [hc] at hnone⟩
          simp only [List.length_append, b64encode_length]
          cases hd : cfg.data_uri <;> simp [dataUriHeader_length]
        · simp [hw] at h

/-- In the non-empty branch, the manifest is the ordered list of the
successfully processed files' entries. -/
theorem run_batch_manifest (env : Env) (cfg : Config) (paths : List String)
    (h : discover paths cfg.recurse ≠ []) :
    (run_batch env cfg paths).manifestJson
      = some ((discover paths cfg.recurse).filterMap
          (fun p => (processFile env cfg p).toOption)) := by
  unfold run_batch
  rw [if_neg h]
  simp [foldl_out_map, initState]

theorem toOption_eq_some {ε α : Type _} (x : Except ε α) (a : α)
    (h : x.toOption = some a) : x = .ok a := by
  cases x <;> simp [Except.toOption] at h ⊢ <;> exact h

/-- C1 counterexample: one 1-byte file, `data_uri = true`, no cap.  The
manifest records `base64_chars = 27` (the 23-character
`data:image/jpeg;base64,` header plus the 4 base64 characters), while
`4 * ceil(final_jpeg_bytes / 3) = 4`. -/
theorem c1_counterexample :
    (run_batch envDemo cfgUri ["a.jpg"]).manifestJson =
        some [{ source := "a.jpg", output := "a.b64.txt", orig_bytes := 1,
                final_jpeg_bytes := 1, base64_chars := 27, data_uri := true }]
      ∧ ¬ ((27 : Nat) = 4 * ((1 + 2) / 3)) :=
  ⟨rfl, by decide⟩

/-- C1 (amended): for every file processed by the batch driver, the
`base64_chars` recorded in its manifest entry equals
`4 * ceil(final_jpeg_bytes / 3)` plus, when `data_uri` is set, the 23
characters of the `data:image/jpeg;base64,` header; the bare
`4 * ceil(final_jpeg_bytes / 3)` law holds exactly when `data_uri` is
false. -/
theorem c1_base64_chars_amended (env : Env) (cfg : Config) (paths : List String)
    (l : List ManifestEntry) (e : ManifestEntry)
    (hm : (run_batch env cfg paths).manifestJson = some l) (he : e ∈ l) :
    e.base64_chars
      = (if e.data_uri then 23 else 0) + 4 * ((e.final_jpeg_bytes + 2) / 3) := by
  by_cases hd : discover paths cfg.recurse = []
  · unfold run_batch at hm
    simp [hd] at hm
  · rw [run_batch_manifest env cfg paths hd] at hm
    injection hm with hm2
    subst hm2
    obtain ⟨p, _hp, hpe⟩ := List.mem_filterMap.1 he
    exact (processFile_ok_entry env cfg p e (toOption_eq_some _ _ hpe)).2.1

theorem c1_base64_chars_amended_witness :
    (ManifestEntry.base64_chars
        { source := "a.jpg", output := "a.b64.txt", orig_bytes := 1,
          final_jpeg_bytes := 1, base64_chars := 27, data_uri := true })
      = (if (ManifestEntry.data_uri
            { source := "a.jpg", output := "a.b64.txt", orig_bytes := 1,
              final_jpeg_bytes := 1, base64_chars := 27, data_uri := true })
         then 23 else 0)
        + 4 * (((ManifestEntry.final_jpeg_bytes
            { source := "a.jpg", output := "a.b64.txt", orig_bytes := 1,
              final_jpeg_bytes := 1, base64_chars := 27, data_uri := true }) + 2) / 3) :=
  c1_base64_chars_amended envDemo cfgUri ["a.jpg"]
    [{ source := "a.jpg", output := "a.b64.txt", orig_bytes := 1,
       final_jpeg_bytes := 1, base64_chars := 27, data_uri := true }]
    { source := "a.jpg", output := "a.b64.txt", orig_bytes := 1,
      final_jpeg_bytes := 1, base64_chars := 27, data_uri := true }
    rfl (List.mem_singleton.2 rfl)

/-- C6: per-file failures are isolated — the skip counter counts exactly the
failing files, the manifest holds exactly the successful files' entries in
discovery order (so a failing file contributes no entry and later files are
still processed), every failing file gets a warning log naming it, and the
batch still returns the success signal. -/
theorem c6_per_file_isolation (env : Env) (cfg : Config) (paths : List String)
    (h : discover paths cfg.recurse ≠ []) :
    (run_batch env cfg paths).skipped
        = ((discover paths cfg.recurse).filter
            (fun p => !(processFile env cfg p).isOk)).length
      ∧ (run_batch env cfg paths).manifestJson
        = some ((discover paths cfg.recurse).filterMap
            (fun p => (processFile env cfg p).toOption))
      ∧ (∀ p ∈ discover paths cfg.recurse, ∀ msg,
            processFile env cfg p = .error msg →
            LogMsg.warn p msg ∈ (run_batch env cfg paths).logs) := by
  refine ⟨?_, run_batch_manifest env cfg paths h, ?_⟩
  · unfold run_batch
    rw [if_neg h]
    simp [foldl_skipped, initState]
  · intro p hp msg hmsg
    unfold run_batch
    rw [if_neg h]
    have hmem : LogMsg.warn p msg ∈ (discover paths cfg.recurse).filterMap (warnOf env cfg) :=
      List.mem_filterMap.2 ⟨p, hp, by unfold warnOf; rw [hmsg]⟩
    simp [foldl_logs, initState, List.mem_append, hmem]

theorem c6_per_file_isolation_witness :
    (run_batch envMix cfgUri ["b.jpg", "a.jpg"]).skipped
        = ((discover ["b.jpg", "a.jpg"] cfgUri.recurse).filter
            (fun p => !(processFile envMix cfgUri p).isOk)).length
      ∧ (run_batch envMix cfgUri ["b.jpg", "a.jpg"]).manifestJson
        = some ((discover ["b.jpg", "a.jpg"] cfgUri.recurse).filterMap
            (fun p => (processFile envMix cfgUri p).toOption))
      ∧ (∀ p ∈ discover ["b.jpg", "a.jpg"] cfgUri.recurse, ∀ msg,
            processFile envMix cfgUri p = .error msg →
            LogMsg.warn p msg ∈ (run_batch envMix cfgUri ["b.jpg", "a.jpg"]).logs) :=
  c6_per_file_isolation envMix cfgUri ["b.jpg", "a.jpg"] (by decide)

/-- With no `cap_chars`, a file's processing never consults the image
backend: it depends only on the file system oracles. -/
theorem processFile_env_indep (env env2 : Env) (cfg : Config) (rel : String)
    (hcap : cfg.cap_chars = none)
    (hr : env2.readFile = env.readFile) (hw : env2.writeOk = env.writeOk) :
    processFile env2 cfg rel = processFile env cfg rel := by
  unfold processFile
  rw [hcap, hr, hw]

theorem foldl_stepFile_congr (env env2 : Env) (cfg : Config)
    (h : ∀ p, processFile env2 cfg p = processFile env cfg p) :
    ∀ (files : List String) (st : LoopState),
      files.foldl (stepFile env2 cfg) st = files.foldl (stepFile env cfg) st := by
  intro files
  induction files with
  | nil => intro st; rfl
  | cons p t ih =>
      intro st
      simp only [List.foldl_cons]
      rw [show stepFile env2 cfg st p = stepFile env cfg st p from by
        unfold stepFile; rw [h p], ih]

/-- C8: when `cap_chars` is unset the driver base64-encodes the original
bytes untouched: every manifest entry has `final_jpeg_bytes = orig_bytes`,
and the whole batch result is independent of the image backend (decoder,
encoder, Pillow availability) — no decode and no resize can occur. -/
theorem c8_passthrough (env : Env) (cfg : Config) (paths : List String)
    (hcap : cfg.cap_chars = none) :
    (∀ l, (run_batch env cfg paths).manifestJson = some l →
        ∀ e ∈ l, e.final_jpeg_bytes = e.orig_bytes)
    ∧ (∀ env2 : Env, env2.readFile = env.readFile → env2.writeOk = env.writeOk →
        run_batch env2 cfg paths = run_batch env cfg paths) := by
  constructor
  · intro l hm e he
    by_cases hd : discover paths cfg.recurse = []
    · unfold run_batch at hm
      simp [hd] at hm
    · rw [run_batch_manifest env cfg paths hd] at hm
      injection hm with hm2
      subst hm2
      obtain ⟨p, _hp, hpe⟩ := List.mem_filterMap.1 he
      exact (processFile_ok_entry env cfg p e (toOption_eq_some _ _ hpe)).2.2 hcap
  · intro env2 hr hw
    simp only [run_batch]
    rw [foldl_stepFile_congr env env2 cfg
      (fun p => processFile_env_indep env env2 cfg p hcap hr hw)]

theorem c8_passthrough_witness :
    (∀ l, (run_batch envDemo cfgUri ["a.jpg"]).manifestJson = some l →
        ∀ e ∈ l, e.final_jpeg_bytes = e.orig_bytes)
    ∧ (∀ env2 : Env, env2.readFile = envDemo.readFile →
        env2.writeOk = envDemo.writeOk →
        run_batch env2 cfgUri ["a.jpg"] = run_batch envDemo cfgUri ["a.jpg"]) :=
  c8_passthrough envDemo cfgUri ["a.jpg"] rfl

/-- C10: whenever at least one file is discovered the manifest is written
unconditionally after the loop; in particular when every file fails it is
the empty array, and the CSV (when requested) is just the header row. -/
theorem c10_manifest_always_written (env : Env) (cfg : Config) (paths : List String)
    (h : discover paths cfg.recurse ≠ []) :
    (run_batch env cfg paths).manifestJson.isSome = true
    ∧ ((∀ p ∈ discover paths cfg.recurse, (processFile env cfg p).isOk = false) →
        (run_batch env cfg paths).manifestJson = some []
        ∧ (cfg.csv_map = true → (run_batch env cfg paths).csvRows = some [csvHeader])) := by
  have hman := run_batch_manifest env cfg paths h
  constructor
  · rw [hman]; rfl
  · intro hall
    have hnil : (discover paths cfg.recurse).filterMap
        (fun p => (processFile env cfg p).toOption) = [] := by
      rw [List.filterMap_eq_nil_iff]
      intro p hp
      have hpf := hall p hp
      cases hq : processFile env cfg p with
      | ok e => rw [hq] at hpf; simp [Except.isOk, Except.toBool] at hpf
      | error msg => simp [Except.toOption]
    refine ⟨by rw [hman, hnil], fun hcsv => ?_⟩
    unfold run_batch
    rw [if_neg h]
    have : (List.foldl (stepFile env cfg) initState (discover paths cfg.recurse)).out_map = [] := by
      rw [foldl_out_map, hnil]; rfl
    simp [hcsv, this]

theorem c10_manifest_always_written_witness :
    (run_batch envFailAll cfgCsv ["a.jpg"]).manifestJson.isSome = true
    ∧ ((∀ p ∈ discover ["a.jpg"] cfgCsv.recurse,
          (processFile envFailAll cfgCsv p).isOk = false) →
        (run_batch envFailAll cfgCsv ["a.jpg"]).manifestJson = some []
        ∧ (cfgCsv.csv_map = true →
            (run_batch envFailAll cfgCsv ["a.jpg"]).csvRows = some [csvHeader])) :=
  c10_manifest_always_written envFailAll cfgCsv ["a.jpg"] (by decide)

theorem bsearchProbes_bounds (enc : Nat → List Nat) (mb : Nat) :
    ∀ (n q_lo q_hi : Nat), q_hi - q_lo ≤ n →
      ∀ q ∈ bsearchProbes enc mb q_lo q_hi, q_lo ≤ q ∧ q < q_hi := by
  intro n
  induction n with
  | zero =>
      intro q_lo q_hi hle q hq
      unfold bsearchProbes at hq
      rw [dif_neg (by omega)] at hq
      simp at hq
  | succ n ih =>
      intro q_lo q_hi hle q hq
      unfold bsearchProbes at hq
      by_cases hlt : q_lo < q_hi
      · rw [dif_pos hlt] at hq
        rcases List.mem_cons.1 hq with hq | hq
        · omega
        · by_cases hfit : (enc ((q_lo + q_hi) / 2)).length ≤ mb
          · rw [if_pos hfit] at hq
            have := ih q_lo ((q_lo + q_hi) / 2) (by omega) q hq
            omega
          · rw [if_neg hfit] at hq
            have := ih ((q_lo + q_hi) / 2 + 1) q_hi (by omega) q hq
            omega
      · rw [dif_neg hlt] at hq
        simp at hq

theorem bsearch_fst (enc : Nat → List Nat) (mb : Nat) :
    ∀ (n q_lo q_hi : Nat) (data : List Nat), q_hi - q_lo ≤ n →
      (bsearch enc mb q_lo q_hi data).1 =
        (match ((bsearchProbes enc mb q_lo q_hi).filter
            (fun q => (enc q).length ≤ mb)).getLast? with
         | none => data
         | some q => enc q) := by
  intro n
  induction n with
  | zero =>
      intro q_lo q_hi data hle
      unfold bsearch bsearchProbes
      rw [dif_neg (by omega), dif_neg (by omega)]
      simp
  | succ n ih =>
      intro q_lo q_hi data hle
      unfold bsearch bsearchProbes
      by_cases hlt : q_lo < q_hi
      · rw [dif_pos hlt, dif_pos hlt]
        by_cases hfit : (enc ((q_lo + q_hi) / 2)).length ≤ mb
        · rw [if_pos hfit, if_pos hfit, List.filter_cons, if_pos (by simpa using hfit)]
          rw [ih q_lo ((q_lo + q_hi) / 2) (enc ((q_lo + q_hi) / 2)) (by omega)]
          cases hfr : (bsearchProbes enc mb q_lo ((q_lo + q_hi) / 2)).filter
              (fun q => (enc q).length ≤ mb) with
          | nil => simp
          | cons a t =>
              rw [List.getLast?_cons_cons]
              rcases hg : (a :: t).getLast? with _ | q
              · simp at hg
              · rfl
        · rw [if_neg hfit, if_neg hfit, List.filter_cons, if_neg (by simpa using hfit)]
          exact ih ((q_lo + q_hi) / 2 + 1) q_hi data (by omega)
      · rw [dif_neg hlt, dif_neg hlt]
        simp

theorem bsearch_final_bounds (enc : Nat → List Nat) (mb : Nat) :
    ∀ (n q_lo q_hi : Nat) (data : List Nat), q_hi - q_lo ≤ n →
      (bsearch enc mb q_lo q_hi data).2.2 ≤ (bsearch enc mb q_lo q_hi data).2.1 := by
  intro n
  induction n with
  | zero =>
      intro q_lo q_hi data hle
      unfold bsearch
      rw [dif_neg (by omega)]
      show q_hi ≤ q_lo
      omega
  | succ n ih =>
      intro q_lo q_hi data hle
      unfold bsearch
      by_cases hlt : q_lo < q_hi
      · rw [dif_pos hlt]
        by_cases hfit : (enc ((q_lo + q_hi) / 2)).length ≤ mb
        · rw [if_pos hfit]
          exact ih q_lo ((q_lo + q_hi) / 2) _ (by omega)
        · rw [if_neg hfit]
          exact ih ((q_lo + q_hi) / 2 + 1) q_hi data (by omega)
      · rw [dif_neg hlt]
        show q_hi ≤ q_lo
        omega

theorem bsearchProbes_fits_pairwise (enc : Nat → List Nat) (mb : Nat) :
    ∀ (n q_lo q_hi : Nat), q_hi - q_lo ≤ n →
      ((bsearchProbes enc mb q_lo q_hi).filter
          (fun q => (enc q).length ≤ mb)).Pairwise (fun a b => b < a) := by
  intro n
  induction n with
  | zero =>
      intro q_lo q_hi hle
      unfold bsearchProbes
      rw [dif_neg (by omega)]
      simp
  | succ n ih =>
      intro q_lo q_hi hle
      unfold bsearchProbes
      by_cases hlt : q_lo < q_hi
      · rw [dif_pos hlt]
        by_cases hfit : (enc ((q_lo + q_hi) / 2)).length ≤ mb
        · rw [if_pos hfit, List.filter_cons, if_pos (by simpa using hfit)]
          refine List.Pairwise.cons (fun a ha => ?_) (ih q_lo ((q_lo + q_hi) / 2) (by omega))
          have hmem := (List.mem_filter.1 ha).1
          have := bsearchProbes_bounds enc mb n q_lo ((q_lo + q_hi) / 2) (by omega) a hmem
          omega
        · rw [if_neg hfit, List.filter_cons, if_neg (by simpa using hfit)]
          exact ih ((q_lo + q_hi) / 2 + 1) q_hi (by omega)
      · rw [dif_neg hlt]
        simp

/-- C3: when the initial quality-85 encoding exceeds the byte budget, the
encoder runs the integer binary search embedded in `bsearch`: probing stops
exactly when `q_lo ≥ q_hi` (the probe list is empty iff the bounds already
cross, and the final bounds satisfy `q_hi ≤ q_lo`), the returned data is the
encoding at the last fitting probe (the initial data if no probe fits), and
the fitting probes are strictly decreasing, so the kept encoding is at the
lowest fitting quality found. -/
theorem c3_binary_search (enc : Nat → List Nat) (mb q_lo q_hi : Nat)
    (data : List Nat) :
    (bsearchProbes enc mb q_lo q_hi = [] ↔ q_hi ≤ q_lo)
    ∧ (bsearch enc mb q_lo q_hi data).2.2 ≤ (bsearch enc mb q_lo q_hi data).2.1
    ∧ (bsearch enc mb q_lo q_hi data).1 =
        (match ((bsearchProbes enc mb q_lo q_hi).filter
            (fun q => (enc q).length ≤ mb)).getLast? with
         | none => data
         | some q => enc q)
    ∧ ((bsearchProbes enc mb q_lo q_hi).filter
        (fun q => (enc q).length ≤ mb)).Pairwise (fun a b => b < a) := by
  refine ⟨?_, bsearch_final_bounds enc mb (q_hi - q_lo) q_lo q_hi data le_rfl,
    bsearch_fst enc mb (q_hi - q_lo) q_lo q_hi data le_rfl,
    bsearchProbes_fits_pairwise enc mb (q_hi - q_lo) q_lo q_hi le_rfl⟩
  constructor
  · intro hnil
    by_contra hlt
    unfold bsearchProbes at hnil
    rw [dif_pos (by omega)] at hnil
    exact List.noConfusion hnil
  · intro hle
    unfold bsearchProbes
    rw [dif_neg (by omega)]

theorem longEdge_fallbackStep_lt (enc : Nat × Nat → Nat → List Nat)
    (quality_floor : Nat) (s : FallbackState) (h50 : max s.1.1 s.1.2 > 50) :
    longEdge (fallbackStep enc quality_floor s) < longEdge s := by
  simp only [fallbackStep, longEdge]
  omega

theorem fallbackTrace_ne_nil (enc : Nat × Nat → Nat → List Nat)
    (mb qf : Nat) (s : FallbackState) : fallbackTrace enc mb qf s ≠ [] := by
  unfold fallbackTrace
  exact List.cons_ne_nil _ _

theorem not_fallbackCont_of_fuel (mb : Nat) (s : FallbackState)
    (h : 6 - s.2.2 ≤ 0) : ¬ fallbackCont mb s :=
  fun hc => by obtain ⟨-, -, h6⟩ := hc; omega

theorem fallbackTrace_getLast (enc : Nat × Nat → Nat → List Nat) (mb qf : Nat) :
    ∀ (n : Nat) (s : FallbackState), 6 - s.2.2 ≤ n →
      (fallbackTrace enc mb qf s).getLast? = some (fallbackLoop enc mb qf s) := by
  intro n
  induction n with
  | zero =>
      intro s hle
      unfold fallbackTrace fallbackLoop
      rw [dif_neg (not_fallbackCont_of_fuel mb s hle),
        dif_neg (not_fallbackCont_of_fuel mb s hle)]
      simp
  | succ n ih =>
      intro s hle
      unfold fallbackTrace fallbackLoop
      by_cases hc : fallbackCont mb s
      · rw [dif_pos hc, dif_pos hc]
        have hfuel : 6 - (fallbackStep enc qf s).2.2 ≤ n := by
          obtain ⟨-, -, h6⟩ := hc
          simp only [fallbackStep]
          omega
        cases ht : fallbackTrace enc mb qf (fallbackStep enc qf s) with
        | nil => exact absurd ht (fallbackTrace_ne_nil enc mb qf _)
        | cons a t =>
            rw [List.getLast?_cons_cons, ← ht]
            exact ih (fallbackStep enc qf s) hfuel
      · rw [dif_neg hc, dif_neg hc]
        simp

theorem fallbackLoop_stops (enc : Nat × Nat → Nat → List Nat) (mb qf : Nat) :
    ∀ (n : Nat) (s : FallbackState), 6 - s.2.2 ≤ n →
      ¬ fallbackCont mb (fallbackLoop enc mb qf s) := by
  intro n
  induction n with
  | zero =>
      intro s hle
      unfold fallbackLoop
      rw [dif_neg (not_fallbackCont_of_fuel mb s hle)]
      exact not_fallbackCont_of_fuel mb s hle
  | succ n ih =>
      intro s hle
      unfold fallbackLoop
      by_cases hc : fallbackCont mb s
      · rw [dif_pos hc]
        refine ih (fallbackStep enc qf s) ?_
        obtain ⟨-, -, h6⟩ := hc
        simp only [fallbackStep]
        omega
      · rw [dif_neg hc]
        exact hc

theorem fallbackTrace_chain (enc : Nat × Nat → Nat → List Nat) (mb qf : Nat) :
    ∀ (n : Nat) (s : FallbackState), 6 - s.2.2 ≤ n →
      List.Chain' (fun a b => longEdge b < longEdge a) (fallbackTrace enc mb qf s) := by
  intro n
  induction n with
  | zero =>
      intro s hle
      unfold fallbackTrace
      rw [dif_neg (not_fallbackCont_of_fuel mb s hle)]
      exact List.chain'_singleton s
  | succ n ih =>
      intro s hle
      unfold fallbackTrace
      by_cases hc : fallbackCont mb s
      · rw [dif_pos hc]
        have hfuel : 6 - (fallbackStep enc qf s).2.2 ≤ n := by
          obtain ⟨-, -, h6⟩ := hc
          simp only [fallbackStep]
          omega
        cases ht : fallbackTrace enc mb qf (fallbackStep enc qf s) with
        | nil => exact absurd ht (fallbackTrace_ne_nil enc mb qf _)
        | cons a t =>
            rw [List.chain'_cons]
            constructor
            · have ha : a = fallbackStep enc qf s := by
                unfold fallbackTrace at ht
                exact (List.cons.injEq _ _ _ _ ▸ ht).1.symm
              rw [ha]
              exact longEdge_fallbackStep_lt enc qf s hc.2.1
            · rw [← ht]
              exact ih (fallbackStep enc qf s) hfuel
      · rw [dif_neg hc]
        exact List.chain'_singleton s

theorem fallbackTrace_dropLast_cont (enc : Nat × Nat → Nat → List Nat) (mb qf : Nat) :
    ∀ (n : Nat) (s : FallbackState), 6 - s.2.2 ≤ n →
      ∀ x ∈ (fallbackTrace enc mb qf s).dropLast, fallbackCont mb x := by
  intro n
  induction n with
  | zero =>
      intro s hle x hx
      unfold fallbackTrace at hx
      rw [dif_neg (not_fallbackCont_of_fuel mb s hle)] at hx
      simp at hx
  | succ n ih =>
      intro s hle x hx
      unfold fallbackTrace at hx
      by_cases hc : fallbackCont mb s
      · rw [dif_pos hc] at hx
        have hfuel : 6 - (fallbackStep enc qf s).2.2 ≤ n := by
          obtain ⟨-, -, h6⟩ := hc
          simp only [fallbackStep]
          omega
        cases ht : fallbackTrace enc mb qf (fallbackStep enc qf s) with
        | nil => exact absurd ht (fallbackTrace_ne_nil enc mb qf _)
        | cons a t =>
            rw [ht, List.dropLast_cons_of_ne_nil (List.cons_ne_nil a t)] at hx
            rcases List.mem_cons.1 hx with hx | hx
            · rw [hx]; exact hc
            · rw [← ht] at hx
              exact ih (fallbackStep enc qf s) hfuel x hx
      · rw [dif_neg hc] at hx
        simp at hx

/-- C7: from any start state, the fallback downscale loop (shrink both
dimensions to `max 1 (floor (d*0.85))`, re-encode at `quality_floor`) visits
a trace of states whose longer edge is strictly decreasing; every state it
iterates from still satisfies the continue condition (over budget, longer
edge > 50, fewer than 6 attempts) and the final state does not, so the loop
stops exactly at the first state that fits the budget, has longer edge ≤ 50,
or has used all 6 attempts; the returned state is the last of the trace, and
(last conjunct) the whole size-fitting encoder returns a value rather than
an exception whenever Pillow is available and the bytes decode — even if the
final data is still over budget. -/
theorem c7_fallback_downscale (enc : Nat × Nat → Nat → List Nat)
    (mb qf : Nat) (s : FallbackState) :
    (fallbackTrace enc mb qf s).getLast? = some (fallbackLoop enc mb qf s)
    ∧ List.Chain' (fun a b => longEdge b < longEdge a) (fallbackTrace enc mb qf s)
    ∧ (∀ x ∈ (fallbackTrace enc mb qf s).dropLast, fallbackCont mb x)
    ∧ ¬ fallbackCont mb (fallbackLoop enc mb qf s)
    ∧ (∀ (env : Env) (b : List Nat) (cap mp : Nat),
        (jpeg_fit_to_b64_cap env b cap mp qf).isOk
          = (!env.pilOk || (env.openImg b).isOk)) := by
  refine ⟨fallbackTrace_getLast enc mb qf (6 - s.2.2) s le_rfl,
    fallbackTrace_chain enc mb qf (6 - s.2.2) s le_rfl,
    fallbackTrace_dropLast_cont enc mb qf (6 - s.2.2) s le_rfl,
    fallbackLoop_stops enc mb qf (6 - s.2.2) s le_rfl, ?_⟩
  intro env b cap mp
  by_cases hp : env.pilOk = false
  · simp [jpeg_fit_to_b64_cap, hp, Except.isOk, Except.toBool]
  · have hp2 : env.pilOk = true := by revert hp; cases env.pilOk <;> simp
    cases ho : env.openImg b with
    | error msg => simp [jpeg_fit_to_b64_cap, hp2, ho, Except.isOk, Except.toBool]
    | ok dims => simp [jpeg_fit_to_b64_cap, hp2, ho, Except.isOk, Except.toBool]

end Img2B64
